import Mathlib

/-!
Verification of `src/mininet_smart_campus_experiment.py` (class
`MininetSmartCampusExperiment`), the Mininet-based experiment orchestrator of
the `ride` repository.

Modelling conventions, shared by every definition below:

* Python strings are modelled as `List Char` (a Lean `String` is exactly a
  packed `List Char`, and working on the list makes the character-level
  reasoning of the address-derivation functions direct).
* A spawned process handle (`subprocess.Popen`) is observed by the
  orchestrator only through `wait()`, which returns its exit code; a handle is
  therefore modelled by the `Int` exit code its `wait` eventually returns.
* Stateful methods are modelled as explicit state-passing functions that also
  return the ordered list of externally visible actions (the *trace*):
  logging classifications, REST calls, Mininet control calls.  External
  answers that the code polls for (the group counts returned by successive
  `get_groups()` calls) are supplied as an explicit oracle list.
* Python exceptions / `exit()` are modelled with `Except` / `Option`.
-/

namespace RideMininet

/-! ## Character and digit utilities

`ipaddress.IPv4Address.__str__` and Python `%d` formatting render numbers in
decimal; `mac_for_host` renders in hexadecimal.  Both are embedded through the
following executable digit-rendering functions.
-/

/-- Character for a digit value `v < 16`: `'0'`-`'9'` then `'a'`-`'f'`
(lower-case hex, as produced by Python's `format(n, "x")`). -/
def digitChar (v : Nat) : Char :=
  Char.ofNat (if v < 10 then 48 + v else 87 + v)

/-- Numeric value of a digit character (inverse of `digitChar` on `v < 16`). -/
def charVal (c : Char) : Nat :=
  if c.toNat < 58 then c.toNat - 48 else c.toNat - 87

/-- Decimal rendering with explicit fuel (structural recursion so that every
theorem witness can be evaluated by `decide`/`rfl`).  Renders nothing for
`n = 0`; `decDigitsL` below handles that case. -/
def decDigitsAux : Nat → Nat → List Char
  | 0, _ => []
  | fuel + 1, n =>
    if n = 0 then [] else decDigitsAux fuel (n / 10) ++ [digitChar (n % 10)]

/-- Decimal rendering of a natural number, as Python's `str(n)` produces it
(no leading zeros, `"0"` for zero). -/
def decDigitsL (n : Nat) : List Char :=
  if n = 0 then ['0'] else decDigitsAux n n

/-- Value of a decimal digit string (left inverse of `decDigitsL`). -/
def decValL (l : List Char) : Nat :=
  l.foldl (fun a c => a * 10 + charVal c) 0

/-- Fixed-width big-endian hexadecimal rendering (width `w` digits, value
taken mod `16 ^ w`). -/
def hexPadL : Nat → Nat → List Char
  | 0, _ => []
  | w + 1, n => hexPadL w (n / 16) ++ [digitChar (n % 16)]

/-- Value of a hexadecimal digit string (left inverse of `hexPadL w` on
`n < 16 ^ w`). -/
def hexValL (l : List Char) : Nat :=
  l.foldl (fun a c => a * 16 + charVal c) 0

/-! ## Address/Identity Allocator -/

/-- Dotted-quad rendering of a 32-bit IPv4 address value, as
`str(ipaddress.IPv4Address(n))` produces it. -/
def ipv4StrL (n : Nat) : List Char :=
  decDigitsL (n / 16777216 % 256) ++ '.' ::
    (decDigitsL (n / 65536 % 256) ++ '.' ::
      (decDigitsL (n / 256 % 256) ++ '.' :: decDigitsL (n % 256)))

/-- Source constant `MULTICAST_ADDRESS_BASE = u'224.0.0.1'`, as the numeric
value of that IPv4 address (`0xE0000001`). -/
def MULTICAST_ADDRESS_BASE : Nat := 3758096385

/-- Multicast address pool built in `__init__` (lines 134-136):
`[str(base_addr + i) for i in range(ntrees)]`.  `IPv4Address.__add__` raises
`AddressValueError` when the sum leaves the 32-bit address space, which is
modelled by returning `none`. -/
def mcast_address_pool (ntrees : Nat) : Option (List (List Char)) :=
  if MULTICAST_ADDRESS_BASE + ntrees ≤ 4294967296 then
    some ((List.range ntrees).map (fun i => ipv4StrL (MULTICAST_ADDRESS_BASE + i)))
  else none

/-- Modelled from the spec: `mac_for_host` is imported from
`topology_manager.test_sdn_topology`, which is not under `src/`.  The spec
(section 4.1/4.2) only fixes that it is a deterministic rendering of the host
number as a Mininet-style MAC string.  It is modelled as the 12 hex digits of
`n`, with the leading two-digit group separated by a colon (the grouping of
the remaining ten digits is immaterial to every claim and is elided). -/
def mac_for_host (n : Nat) : List Char :=
  hexPadL 2 (n / 1099511627776) ++ ':' :: hexPadL 10 (n % 1099511627776)

/-- Remapping performed by `__get_mac_for_switch` (lines 231-233): the first
letter of a minor-class (`'m'`) switch name becomes the canonical letter
`'a'`; every other type-prefix letter is kept. -/
def canonicalSwitchLetter (c : Char) : Char :=
  if c = 'm' then 'a' else c

/-- Body of `__get_mac_for_switch` (lines 223-236) applied to a switch whose
name is the type-prefix `letter` followed by the decimal digits of `num`:
`mac = first_letter + '0:00:00' + mac_for_host(int(switch[1:]))[3:]`. -/
def get_mac_for_switch (letter : Char) (num : Nat) : List Char :=
  canonicalSwitchLetter letter :: ('0' :: ':' :: '0' :: '0' :: ':' :: '0' :: '0' :: []) ++
    (mac_for_host num).drop 3

/-- Prefix-anchored match of the host-name regular expression
`h(\d+)-([mb])(\d+)` used by `__get_ip_for_host` (line 246).  Python's
`re.match` anchors at the start of the string only, so trailing characters
after the third group are accepted and ignored.  The two `\d+` groups are
maximal digit runs (the following mandatory characters `'-'` / end-of-pattern
make greedy matching equivalent to the regular expression's semantics).
`matchHostTail` handles the part of the pattern after the first digit group:
the literal `'-'`, the `[mb]` class, and the second digit group. -/
def matchHostTail (num : List Char) : List Char → Option (List Char × Char × List Char)
  | cdash :: ty :: rest3 =>
    if cdash = '-' then
      if ty = 'b' ∨ ty = 'm' then
        if rest3.takeWhile Char.isDigit = [] then none
        else some (num, ty, rest3.takeWhile Char.isDigit)
      else none
    else none
  | _ => none

def matchHostName (l : List Char) : Option (List Char × Char × List Char) :=
  match l with
  | [] => none
  | c0 :: rest =>
    if c0 = 'h' then
      if rest.takeWhile Char.isDigit = [] then none
      else matchHostTail (rest.takeWhile Char.isDigit) (rest.dropWhile Char.isDigit)
    else none

/-- Third octet selected by the building type (line 247):
`131 if building_type == 'b' else 200`, rendered by `%d`. -/
def building_code (ty : Char) : List Char :=
  if ty = 'b' then ['1', '3', '1'] else ['2', '0', '0']

/-- String built by line 247: `"10.%d.%s.%s" % (code, building_num, host_num)`. -/
def ip_render (ty : Char) (bld num : List Char) : List Char :=
  '1' :: '0' :: '.' :: building_code ty ++ '.' :: (bld ++ '.' :: num)

/-- Body of `__get_ip_for_host` (lines 244-247).  When the regular expression
does not match, `re.match` returns `None` and the `.groups()` call raises
(`AttributeError`), modelled by `none`. -/
def get_ip_for_host (l : List Char) : Option (List Char) :=
  match matchHostName l with
  | some (num, ty, bld) => some (ip_render ty bld num)
  | none => none

/-- Decides whether a name matches the full convention `h<num>-<type><building>`
(the regular expression matching the *entire* name): the prefix match must
succeed and reconstruct the whole input. -/
def conformingHostName (l : List Char) : Bool :=
  match matchHostName l with
  | some (num, ty, bld) => l == 'h' :: num ++ '-' :: ty :: bld
  | none => false

/-! ## Process Lifecycle Manager: reaping and exit-code classification -/

/-- Source constant `errno.ENETUNREACH` (Linux value 101), compared against
client exit codes at line 632. -/
def ENETUNREACH : Int := 101

/-- Externally visible actions of `teardown_experiment`, in program order. -/
inductive TDEvent where
  | waitServer (code : Int)
  | logVoidTrial
  | logServerUnexpected (code : Int)
  | waitClient (code : Int)
  | logClientNetUnreach
  | logClientUnexpected (code : Int)
  | waitClientIperf
  | killServerIperf
  | cli
  | removeAllFlows
  | removeAllGroups
  | waitInterval
  | queryGroups (n : Nat)
  | netStop
  | mnClean
  | sleepBetweenRuns
  deriving DecidableEq

/-- Classification of the server handle's exit code (lines 619-626): zero is
success; the designated no-reachable-subscribers code voids the trial; any
other non-zero code is an unexpected server failure. -/
inductive ServerOutcome where
  | ok
  | voidTrial
  | unexpected (code : Int)
  deriving DecidableEq

/-- Classification of a client handle's exit code (lines 627-636). -/
inductive ClientOutcome where
  | ok
  | netUnreach
  | unexpected (code : Int)
  deriving DecidableEq

/-- Lines 619-626: `if ret != 0: if ret == SeismicServer.EXIT_CODE_NO_SUBSCRIBERS:
... else: ...`.  The designated code `noSubs` is
`SeismicServer.EXIT_CODE_NO_SUBSCRIBERS`, a constant of the server application
(not under `src/`); it is kept as a parameter. -/
def classify_server (noSubs code : Int) : ServerOutcome :=
  if code ≠ 0 then
    if code = noSubs then ServerOutcome.voidTrial else ServerOutcome.unexpected code
  else ServerOutcome.ok

/-- Lines 631-636: `if ret != 0: if ret == errno.ENETUNREACH: ... else: ...`. -/
def classify_client (code : Int) : ClientOutcome :=
  if code ≠ 0 then
    if code = ENETUNREACH then ClientOutcome.netUnreach else ClientOutcome.unexpected code
  else ClientOutcome.ok

/-- Outcome list produced by reaping: the server's outcome, then one outcome
per client handle, in roster order.  The clients are a total `map`: no client
outcome terminates the loop of lines 627-636 early. -/
def reap_outcomes (noSubs serverCode : Int) (clientCodes : List Int) :
    ServerOutcome × List ClientOutcome :=
  (classify_server noSubs serverCode, clientCodes.map classify_client)

/-- Trace of the server-reaping step (lines 619-626): wait, then the log
classification of a non-zero code. -/
def server_reap_trace (noSubs sc : Int) : List TDEvent :=
  TDEvent.waitServer sc ::
    (if sc ≠ 0 then
       if sc = noSubs then [TDEvent.logVoidTrial] else [TDEvent.logServerUnexpected sc]
     else [])

/-- Trace of reaping one client handle (lines 627-636). -/
def client_reap_trace_one (c : Int) : List TDEvent :=
  TDEvent.waitClient c ::
    (if c ≠ 0 then
       if c = ENETUNREACH then [TDEvent.logClientNetUnreach] else [TDEvent.logClientUnexpected c]
     else [])

/-- Full reaping trace: the server handle (`self.popens[0]`) first, then every
remaining handle (`self.popens[1:]`) in roster order. -/
def reap_trace (noSubs sc : Int) (cs : List Int) : List TDEvent :=
  server_reap_trace noSubs sc ++ cs.flatMap client_reap_trace_one

/-- Trace of lines 639-646: wait on each client iperf, then kill-and-wait each
server iperf (the `OSError` of an already-exited process is swallowed). -/
def iperf_teardown_trace (clientIperfs serverIperfs : List Int) : List TDEvent :=
  clientIperfs.map (fun _ => TDEvent.waitClientIperf) ++
    serverIperfs.map (fun _ => TDEvent.killServerIperf)

/-! ## Control-Plane Cleanup Coordinator -/

/-- One cycle of the group-removal loop (lines 666-670): remove all groups,
sleep one second, query the remaining groups (the count `n` is the answer the
controller returns to that query). -/
def cleanup_cycle (n : Nat) : List TDEvent :=
  [TDEvent.removeAllGroups, TDEvent.waitInterval, TDEvent.queryGroups n]

/-- The `while ngroups > 0` loop of lines 665-671.  `polls` is the oracle of
counts returned by the successive `get_groups()` calls; the loop runs one
cycle per poll and stops after the first poll that returns zero.  `none`
means the oracle was exhausted with every poll positive, i.e. the unbounded
source loop is still running. -/
def cleanup_loop : List Nat → Option (List TDEvent)
  | [] => none
  | n :: rest =>
    if n = 0 then some (cleanup_cycle n)
    else (cleanup_loop rest).map (fun tr => cleanup_cycle n ++ tr)

/-- Lines 657-671: one `remove_all_flow_rules()` request, then the
group-removal loop. -/
def control_plane_cleanup (polls : List Nat) : Option (List TDEvent) :=
  (cleanup_loop polls).map (fun tr => TDEvent.removeAllFlows :: tr)

/-! ## teardown_experiment -/

/-- Per-trial mutable state of the experiment object that
`teardown_experiment` reads and writes: the three process rosters, the
`show_cli` flag and whether `topology_adapter` is set (non-`None`). -/
structure ExpState where
  popens : List Int
  clientIperfs : List Int
  serverIperfs : List Int
  showCli : Bool
  adapterUp : Bool
  deriving DecidableEq

/-- Failure modes of `teardown_experiment`: `indexError` is the uncaught
`IndexError` of `self.popens[0]` on an empty roster (line 619);
`cleanupHang` models the unbounded group-removal loop never observing a zero
count (oracle exhausted). -/
inductive TDErr where
  | indexError
  | cleanupHang
  deriving DecidableEq

/-- Body of `teardown_experiment` (lines 614-685): reap the server handle
(`self.popens[0]`) and then every client handle, wait/kill the iperf
processes, reset the three rosters to `[]`, optionally drop into the Mininet
CLI, run the control-plane cleanup when an adapter is set, stop the network
(errors tolerated), force `mn -c`, and sleep before the next run. -/
def teardown_experiment (noSubs : Int) (st : ExpState) (polls : List Nat) :
    Except TDErr (ExpState × List TDEvent) :=
  match st.popens with
  | [] => Except.error TDErr.indexError
  | sc :: cs =>
    let reapEvts := reap_trace noSubs sc cs
    let iperfEvts := iperf_teardown_trace st.clientIperfs st.serverIperfs
    let cliEvts := if st.showCli then [TDEvent.cli] else []
    let finalEvts := [TDEvent.netStop, TDEvent.mnClean, TDEvent.sleepBetweenRuns]
    let st2 : ExpState := { st with popens := [], clientIperfs := [], serverIperfs := [] }
    if st.adapterUp then
      match control_plane_cleanup polls with
      | none => Except.error TDErr.cleanupHang
      | some cleanEvts =>
        Except.ok (st2, reapEvts ++ iperfEvts ++ cliEvts ++ cleanEvts ++ finalEvts)
    else
      Except.ok (st2, reapEvts ++ iperfEvts ++ cliEvts ++ finalEvts)

/-- Roster construction of `setup_seismic_test` (lines 576-606): the server's
process handle is appended to `self.popens` first, then one handle per client
(`sensors.union(subscribers)`).  `popens` is `[]` at this point of every run:
it is initialised empty in `__init__` and reset to `[]` by each teardown. -/
def setup_seismic_popens (popens : List Int) (serverCode : Int) (clientCodes : List Int) :
    List Int :=
  popens ++ serverCode :: clientCodes

/-- Line 132: `self.show_cli = self.nruns == 1 or show_cli`. -/
def show_cli_of (nruns : Nat) (showCliArg : Bool) : Bool :=
  nruns == 1 || showCliArg

/-! ## run_experiment and setup_topology_manager -/

/-- Externally visible actions of `run_experiment`, in program order. -/
inductive RunEvent where
  | netBuild
  | netStart
  | waitConnected
  | convergenceSleep
  | setRoutes
  | ping
  | staticArp
  | adapterCreated (t : String)
  | trafficGenerators
  | seismicSetup
  | armSleep
  | linkDown (a b : String)
  | nodeStop (n : String) (deleteIntfs : Bool)
  | observeSleep
  deriving DecidableEq

/-- Body of `setup_topology_manager` (lines 432-448): the two known adapter
types instantiate the adapter; any other type logs an error and calls
`exit(102)`, modelled as `Except.error 102`. -/
def setup_topology_manager (t : String) : Except Nat (List RunEvent) :=
  if t = "onos" ∨ t = "floodlight" then Except.ok [RunEvent.adapterCreated t]
  else Except.error 102

/-- Events of `run_experiment` up to the `setup_topology_manager` call
(lines 360-397): network build, start, switch-connection wait, convergence
sleep, route configuration, the reachability ping and the static ARP
exchange all happen before the adapter type is examined. -/
def run_prefix_trace : List RunEvent :=
  [RunEvent.netBuild, RunEvent.netStart, RunEvent.waitConnected, RunEvent.convergenceSleep,
   RunEvent.setRoutes, RunEvent.ping, RunEvent.staticArp]

/-- Body of `run_experiment` (lines 342-430) as a trace: the returned pair is
the ordered list of performed actions and, when `exit(102)` fired inside
`setup_topology_manager`, the propagated exit code (`some 102`); actions after
the abort point are never performed.  The failure model (lines 417-420) downs
every failed link first, then stops every failed node with
`deleteIntfs=False`. -/
def run_experiment (t : String) (failedLinks : List (String × String))
    (failedNodes : List String) : List RunEvent × Option Nat :=
  match setup_topology_manager t with
  | Except.error code => (run_prefix_trace, some code)
  | Except.ok adapterEvts =>
    (run_prefix_trace ++ adapterEvts ++
       [RunEvent.trafficGenerators, RunEvent.seismicSetup, RunEvent.armSleep] ++
       failedLinks.map (fun l => RunEvent.linkDown l.1 l.2) ++
       failedNodes.map (fun n => RunEvent.nodeStop n false) ++
       [RunEvent.observeSleep], none)

/-! ## Event classifiers used by the trace theorems -/

/-- Events produced while reaping the server handle. -/
def isServerEvt : TDEvent → Bool
  | TDEvent.waitServer _ => true
  | TDEvent.logVoidTrial => true
  | TDEvent.logServerUnexpected _ => true
  | _ => false

/-- Events produced while reaping a client handle. -/
def isClientEvt : TDEvent → Bool
  | TDEvent.waitClient _ => true
  | TDEvent.logClientNetUnreach => true
  | TDEvent.logClientUnexpected _ => true
  | _ => false

/-- Control-plane cleanup and network-stop events of the teardown. -/
def isCleanupEvt : TDEvent → Bool
  | TDEvent.removeAllFlows => true
  | TDEvent.removeAllGroups => true
  | TDEvent.waitInterval => true
  | TDEvent.queryGroups _ => true
  | TDEvent.netStop => true
  | TDEvent.mnClean => true
  | _ => false

/-- The `waitClient` events of a trace (one per reaped client handle). -/
def isWaitClient : TDEvent → Bool
  | TDEvent.waitClient _ => true
  | _ => false

/-- The `queryGroups` events of a trace (one per cleanup-loop poll). -/
def isQueryGroups : TDEvent → Bool
  | TDEvent.queryGroups _ => true
  | _ => false

/-- Link-failure events of `run_experiment`. -/
def isLinkDownEvt : RunEvent → Bool
  | RunEvent.linkDown _ _ => true
  | _ => false

/-- Node-failure events of `run_experiment`. -/
def isNodeStopEvt : RunEvent → Bool
  | RunEvent.nodeStop _ _ => true
  | _ => false

/-- Events realizing topology resources: the network build/start of
`run_experiment` (the Mininet nodes were added even earlier, in
`setup_topology`). -/
def isRealizeEvt : RunEvent → Bool
  | RunEvent.netBuild => true
  | RunEvent.netStart => true
  | _ => false

/-- Participant-spawning and failure-injection events of `run_experiment`. -/
def isSpawnOrFailEvt : RunEvent → Bool
  | RunEvent.trafficGenerators => true
  | RunEvent.seismicSetup => true
  | RunEvent.linkDown _ _ => true
  | RunEvent.nodeStop _ _ => true
  | _ => false

/-! ## Digit-string lemmas

The address-derivation claims reduce to injectivity of the decimal and
hexadecimal renderings, proved through explicit evaluation functions that are
left inverses of the renderings.
-/

theorem charVal_digitChar : ∀ v : Nat, v < 16 → charVal (digitChar v) = v := by decide

theorem digitChar_ne_dot : ∀ v : Nat, v < 10 → digitChar v ≠ '.' := by decide

theorem hexValL_snoc (l : List Char) (c : Char) :
    hexValL (l ++ [c]) = hexValL l * 16 + charVal c := by
  simp [hexValL, List.foldl_append]

theorem hexPadL_length : ∀ w n : Nat, (hexPadL w n).length = w := by
  intro w
  induction w with
  | zero => intro n; rfl
  | succ w ih => intro n; simp [hexPadL, ih]

theorem hexValL_hexPadL : ∀ w n : Nat, n < 16 ^ w → hexValL (hexPadL w n) = n := by
  intro w
  induction w with
  | zero =>
    intro n h
    have hn : n = 0 := by simpa using h
    subst hn; rfl
  | succ w ih =>
    intro n h
    have hdiv : n / 16 < 16 ^ w := by
      have hlt : n < 16 ^ w * 16 := by rw [← pow_succ]; exact h
      omega
    have hmod : charVal (digitChar (n % 16)) = n % 16 :=
      charVal_digitChar _ (Nat.mod_lt _ (by norm_num))
    simp only [hexPadL]
    rw [hexValL_snoc, ih _ hdiv, hmod]
    omega

theorem hexPadL_inj (w n1 n2 : Nat) (h1 : n1 < 16 ^ w) (h2 : n2 < 16 ^ w)
    (h : hexPadL w n1 = hexPadL w n2) : n1 = n2 := by
  rw [← hexValL_hexPadL w n1 h1, ← hexValL_hexPadL w n2 h2, h]

theorem decValL_snoc (l : List Char) (c : Char) :
    decValL (l ++ [c]) = decValL l * 10 + charVal c := by
  simp [decValL, List.foldl_append]

theorem decValL_decDigitsAux : ∀ fuel n : Nat, n < 10 ^ fuel →
    decValL (decDigitsAux fuel n) = n := by
  intro fuel
  induction fuel with
  | zero =>
    intro n h
    have hn : n = 0 := by simpa using h
    subst hn; rfl
  | succ fuel ih =>
    intro n h
    by_cases hn : n = 0
    · subst hn; rfl
    · have hdiv : n / 10 < 10 ^ fuel := by
        have hlt : n < 10 ^ fuel * 10 := by rw [← pow_succ]; exact h
        omega
      have hmod : charVal (digitChar (n % 10)) = n % 10 :=
        charVal_digitChar _ (by have := Nat.mod_lt n (show 0 < 10 by norm_num); omega)
      simp only [decDigitsAux, if_neg hn]
      rw [decValL_snoc, ih _ hdiv, hmod]
      omega

theorem decValL_decDigitsL (n : Nat) : decValL (decDigitsL n) = n := by
  by_cases hn : n = 0
  · subst hn; rfl
  · simp only [decDigitsL, if_neg hn]
    exact decValL_decDigitsAux n n (Nat.lt_pow_self (by norm_num) n)

theorem decDigitsL_inj (m n : Nat) (h : decDigitsL m = decDigitsL n) : m = n := by
  rw [← decValL_decDigitsL m, ← decValL_decDigitsL n, h]

theorem mem_decDigitsAux : ∀ fuel n : Nat, ∀ c : Char, c ∈ decDigitsAux fuel n →
    ∃ v, v < 10 ∧ c = digitChar v := by
  intro fuel
  induction fuel with
  | zero => intro n c h; simp [decDigitsAux] at h
  | succ fuel ih =>
    intro n c h
    simp only [decDigitsAux] at h
    split_ifs at h with hn
    · simp at h
    · rcases List.mem_append.mp h with h | h
      · exact ih _ _ h
      · have hc : c = digitChar (n % 10) := by simpa using h
        exact ⟨n % 10, Nat.mod_lt _ (by norm_num), hc⟩

theorem dot_not_mem_decDigitsL (n : Nat) : '.' ∉ decDigitsL n := by
  intro h
  by_cases hn : n = 0
  · subst hn
    simp [decDigitsL] at h
  · simp only [decDigitsL, if_neg hn] at h
    obtain ⟨v, hv, hc⟩ := mem_decDigitsAux n n '.' h
    exact digitChar_ne_dot v hv hc.symm

theorem append_cons_inj {α : Type} (c : α) :
    ∀ a a' t t' : List α, c ∉ a → c ∉ a' → a ++ c :: t = a' ++ c :: t' →
      a = a' ∧ t = t' := by
  intro a
  induction a with
  | nil =>
    intro a' t t' ha ha' h
    cases a' with
    | nil =>
      simp only [List.nil_append, List.cons.injEq] at h
      exact ⟨rfl, h.2⟩
    | cons x a'' =>
      simp only [List.nil_append, List.cons_append, List.cons.injEq] at h
      exact absurd (by rw [h.1]; exact List.mem_cons_self x a'') ha'
  | cons x a ih =>
    intro a' t t' ha ha' h
    cases a' with
    | nil =>
      simp only [List.cons_append, List.nil_append, List.cons.injEq] at h
      exact absurd (by rw [← h.1]; exact List.mem_cons_self x a) ha
    | cons y a'' =>
      simp only [List.cons_append, List.cons.injEq] at h
      obtain ⟨rfl, h2⟩ := h
      have hrec := ih a'' t t' (fun hm => ha (List.mem_cons_of_mem _ hm))
        (fun hm => ha' (List.mem_cons_of_mem _ hm)) h2
      exact ⟨by rw [hrec.1], hrec.2⟩

theorem ipv4StrL_inj (m n : Nat) (hm : m < 4294967296) (hn : n < 4294967296)
    (h : ipv4StrL m = ipv4StrL n) : m = n := by
  unfold ipv4StrL at h
  obtain ⟨h1, h⟩ := append_cons_inj '.' _ _ _ _ (dot_not_mem_decDigitsL _)
    (dot_not_mem_decDigitsL _) h
  obtain ⟨h2, h⟩ := append_cons_inj '.' _ _ _ _ (dot_not_mem_decDigitsL _)
    (dot_not_mem_decDigitsL _) h
  obtain ⟨h3, h4⟩ := append_cons_inj '.' _ _ _ _ (dot_not_mem_decDigitsL _)
    (dot_not_mem_decDigitsL _) h
  have e1 := decDigitsL_inj _ _ h1
  have e2 := decDigitsL_inj _ _ h2
  have e3 := decDigitsL_inj _ _ h3
  have e4 := decDigitsL_inj _ _ h4
  omega

/-- C3: for every requested tree count `N`, the allocator of `__init__`
(lines 134-136) produces a pool of exactly `N` multicast address strings that
are pairwise distinct, the `i`-th being the rendering of the base address
plus `i` (consecutive allocation); the pool is computed once, at experiment
construction, from the fixed base `224.0.0.1`.  The hypothesis is the
overflow precondition the spec places on the caller (`base + N` must stay in
the 32-bit address space, else `IPv4Address.__add__` raises). -/
theorem mcast_pool_spec (ntrees : Nat)
    (h : MULTICAST_ADDRESS_BASE + ntrees ≤ 4294967296) :
    ∃ pool, mcast_address_pool ntrees = some pool ∧ pool.length = ntrees ∧
      (∀ i, (hi : i < pool.length) → pool[i] = ipv4StrL (MULTICAST_ADDRESS_BASE + i)) ∧
      pool.Nodup := by
  have hbase : MULTICAST_ADDRESS_BASE = 3758096385 := rfl
  refine ⟨(List.range ntrees).map (fun i => ipv4StrL (MULTICAST_ADDRESS_BASE + i)),
    ?_, ?_, ?_, ?_⟩
  · simp [mcast_address_pool, h]
  · simp
  · intro i hi
    simp only [List.length_map, List.length_range] at hi
    simp
  · refine (List.nodup_range ntrees).map_on ?_
    intro x hx y hy hxy
    simp only [List.mem_range] at hx hy
    have hxe : MULTICAST_ADDRESS_BASE + x = MULTICAST_ADDRESS_BASE + y :=
      ipv4StrL_inj _ _ (by omega) (by omega) hxy
    omega

/-- Witness for C3 at `N = 3`: the overflow hypothesis holds, and the pool is
the spec's scenario value `224.0.0.1, 224.0.0.2, 224.0.0.3`. -/
theorem mcast_pool_spec_witness :
    MULTICAST_ADDRESS_BASE + 3 ≤ 4294967296 ∧
    mcast_address_pool 3 =
      some ["224.0.0.1".data, "224.0.0.2".data, "224.0.0.3".data] ∧
    (∃ pool, mcast_address_pool 3 = some pool ∧ pool.length = 3 ∧
      (∀ i, (hi : i < pool.length) → pool[i] = ipv4StrL (MULTICAST_ADDRESS_BASE + i)) ∧
      pool.Nodup) :=
  ⟨by decide, by decide, mcast_pool_spec 3 (by decide)⟩

/-! ## Switch hardware-identifier lemmas -/

theorem canonicalSwitchLetter_inj (l1 l2 : Char) (h1 : l1 ≠ 'a') (h2 : l2 ≠ 'a')
    (h : canonicalSwitchLetter l1 = canonicalSwitchLetter l2) : l1 = l2 := by
  unfold canonicalSwitchLetter at h
  split_ifs at h with hm1 hm2 hm2
  · rw [hm1, hm2]
  · exact absurd h.symm h2
  · exact absurd h h1
  · exact h

theorem mac_for_host_drop3 (n : Nat) :
    (mac_for_host n).drop 3 = hexPadL 10 (n % 1099511627776) := by
  have hshape : mac_for_host n =
      (hexPadL 2 (n / 1099511627776) ++ [':']) ++ hexPadL 10 (n % 1099511627776) := by
    simp [mac_for_host]
  have hlen : (hexPadL 2 (n / 1099511627776) ++ [':']).length = 3 := by
    simp [hexPadL_length]
  rw [hshape, ← hlen, List.drop_left]

/-- C6: the hardware identifier (DPID/MAC) that `__get_mac_for_switch`
(lines 223-236) derives for a switch is built from its type-prefix letter and
its numeric suffix, with the minor-class prefix `'m'` remapped to the
canonical letter `'a'` before derivation (first conjunct), and two switches
with distinct (canonical-letter, number) data derive distinct identifiers
(second conjunct).  The hypotheses are the naming convention of conforming
topologies: `'a'` is reserved as the remap target of `'m'` and never occurs
as a declared type-prefix, and numeric suffixes fit in the ten hex digits
kept by the `mac[3:]` slice. -/
theorem switch_mac_spec :
    (∀ n : Nat, get_mac_for_switch 'm' n = get_mac_for_switch 'a' n) ∧
    (∀ l1 l2 : Char, ∀ n1 n2 : Nat, l1 ≠ 'a' → l2 ≠ 'a' →
      n1 < 1099511627776 → n2 < 1099511627776 →
      get_mac_for_switch l1 n1 = get_mac_for_switch l2 n2 → l1 = l2 ∧ n1 = n2) := by
  constructor
  · intro n; rfl
  · intro l1 l2 n1 n2 h1 h2 hn1 hn2 h
    simp only [get_mac_for_switch, List.cons_append, List.cons.injEq] at h
    obtain ⟨hletter, htail⟩ := h
    simp only [List.nil_append, true_and] at htail
    have hd : (mac_for_host n1).drop 3 = (mac_for_host n2).drop 3 := htail
    rw [mac_for_host_drop3, mac_for_host_drop3] at hd
    have hm1 : n1 % 1099511627776 < 16 ^ 10 := by
      have := Nat.mod_lt n1 (show 0 < 1099511627776 by norm_num)
      norm_num
      omega
    have hm2 : n2 % 1099511627776 < 16 ^ 10 := by
      have := Nat.mod_lt n2 (show 0 < 1099511627776 by norm_num)
      norm_num
      omega
    have hmods := hexPadL_inj 10 _ _ hm1 hm2 hd
    refine ⟨canonicalSwitchLetter_inj l1 l2 h1 h2 hletter, ?_⟩
    rw [Nat.mod_eq_of_lt hn1, Nat.mod_eq_of_lt hn2] at hmods
    exact hmods

/-- Witness for C6: concrete conforming switches `b1` and `e1` (a building
switch and the server switch) satisfy the hypotheses and derive distinct
identifiers. -/
theorem switch_mac_spec_witness :
    ('b' : Char) ≠ 'a' ∧ ('e' : Char) ≠ 'a' ∧ (1 : Nat) < 1099511627776 ∧
    get_mac_for_switch 'b' 1 ≠ get_mac_for_switch 'e' 1 :=
  ⟨by decide, by decide, by decide, fun h => by
    have hl := (switch_mac_spec.2 'b' 'e' 1 1 (by decide) (by decide) (by decide)
      (by decide) h).1
    exact absurd hl (by decide)⟩

/-! ## Host-name parsing lemmas (for `__get_ip_for_host`) -/

theorem takeWhile_dropWhile_append_cons (p : Char → Bool) :
    ∀ (a : List Char) (x : Char) (b : List Char), (∀ c ∈ a, p c = true) → p x = false →
      (a ++ x :: b).takeWhile p = a ∧ (a ++ x :: b).dropWhile p = x :: b := by
  intro a
  induction a with
  | nil =>
    intro x b _ hx
    simp [List.takeWhile_cons, List.dropWhile_cons, hx]
  | cons c a ih =>
    intro x b ha hx
    have hc : p c = true := ha c (List.mem_cons_self _ _)
    have hrec := ih x b (fun d hd => ha d (List.mem_cons_of_mem _ hd)) hx
    simp [List.takeWhile_cons, List.dropWhile_cons, hc, hrec.1, hrec.2]

theorem takeWhile_all (p : Char → Bool) :
    ∀ l : List Char, (∀ c ∈ l, p c = true) → l.takeWhile p = l := by
  intro l
  induction l with
  | nil => intro _; rfl
  | cons c l ih =>
    intro h
    simp [List.takeWhile_cons, h c (List.mem_cons_self _ _),
      ih (fun d hd => h d (List.mem_cons_of_mem _ hd))]

theorem matchHostName_sound (l : List Char) (num bld : List Char) (ty : Char)
    (h : matchHostName l = some (num, ty, bld)) :
    num ≠ [] ∧ bld ≠ [] ∧ (∀ c ∈ num, c.isDigit = true) ∧ (∀ c ∈ bld, c.isDigit = true) ∧
      (ty = 'b' ∨ ty = 'm') ∧
      ∃ rest, l = 'h' :: (num ++ '-' :: ty :: (bld ++ rest)) := by
  rcases l with _ | ⟨c0, rest⟩
  · simp [matchHostName] at h
  · simp only [matchHostName] at h
    by_cases hc0 : c0 = 'h'
    swap
    · rw [if_neg hc0] at h; exact absurd h (by simp)
    rw [if_pos hc0] at h
    subst hc0
    by_cases hnum : rest.takeWhile Char.isDigit = []
    · rw [if_pos hnum] at h; exact absurd h (by simp)
    rw [if_neg hnum] at h
    rcases hdrop : rest.dropWhile Char.isDigit with _ | ⟨cdash, rest2⟩
    · rw [hdrop] at h; exact absurd h (by simp [matchHostTail])
    rcases rest2 with _ | ⟨tyc, rest3⟩
    · rw [hdrop] at h; exact absurd h (by simp [matchHostTail])
    rw [hdrop] at h
    simp only [matchHostTail] at h
    by_cases hdash : cdash = '-'
    swap
    · rw [if_neg hdash] at h; exact absurd h (by simp)
    rw [if_pos hdash] at h
    subst hdash
    by_cases hty : tyc = 'b' ∨ tyc = 'm'
    swap
    · rw [if_neg hty] at h; exact absurd h (by simp)
    rw [if_pos hty] at h
    by_cases hbld : rest3.takeWhile Char.isDigit = []
    · rw [if_pos hbld] at h; exact absurd h (by simp)
    rw [if_neg hbld] at h
    simp only [Option.some.injEq, Prod.mk.injEq] at h
    obtain ⟨h1, h2, h3⟩ := h
    subst h1
    subst h2
    subst h3
    refine ⟨hnum, hbld, fun c hc => List.mem_takeWhile_imp hc,
      fun c hc => List.mem_takeWhile_imp hc, hty,
      rest3.dropWhile Char.isDigit, ?_⟩
    rw [List.takeWhile_append_dropWhile Char.isDigit rest3, ← hdrop,
      List.takeWhile_append_dropWhile Char.isDigit rest]

theorem matchHostName_exact (num bld : List Char) (ty : Char)
    (hnum : num ≠ []) (hbld : bld ≠ [])
    (hdn : ∀ c ∈ num, c.isDigit = true) (hdb : ∀ c ∈ bld, c.isDigit = true)
    (hty : ty = 'b' ∨ ty = 'm') :
    matchHostName ('h' :: (num ++ '-' :: ty :: bld)) = some (num, ty, bld) := by
  have htd := takeWhile_dropWhile_append_cons Char.isDigit num '-' (ty :: bld) hdn (by decide)
  simp [matchHostName, matchHostTail, htd.1, htd.2, hnum, hbld, hty,
    takeWhile_all Char.isDigit bld hdb]

theorem matchHostName_cons_h (rest : List Char) (h : rest.takeWhile Char.isDigit ≠ []) :
    matchHostName ('h' :: rest) =
      matchHostTail (rest.takeWhile Char.isDigit) (rest.dropWhile Char.isDigit) := by
  simp only [matchHostName]
  rw [if_pos trivial, if_neg h]

theorem matchHostName_prefix_isSome (num bld rest : List Char) (ty : Char)
    (hnum : num ≠ []) (hbld : bld ≠ [])
    (hdn : ∀ c ∈ num, c.isDigit = true) (hdb : ∀ c ∈ bld, c.isDigit = true)
    (hty : ty = 'b' ∨ ty = 'm') :
    (matchHostName ('h' :: (num ++ '-' :: ty :: (bld ++ rest)))).isSome = true := by
  have htd := takeWhile_dropWhile_append_cons Char.isDigit num '-' (ty :: (bld ++ rest))
    hdn (by decide)
  rcases bld with _ | ⟨b0, btl⟩
  · exact absurd rfl hbld
  have hb0 : Char.isDigit b0 = true := hdb b0 (List.mem_cons_self _ _)
  have hne : ((b0 :: btl) ++ rest).takeWhile Char.isDigit ≠ [] := by
    simp [List.takeWhile_cons, hb0]
  rw [matchHostName_cons_h _ (by rw [htd.1]; exact hnum), htd.1, htd.2]
  simp only [matchHostTail]
  rw [if_pos trivial, if_pos hty, if_neg hne]
  rfl

/-- C7 counterexample: the name `h1-b2x` does not match the convention
`h<num>-<type><building>` (the trailing `x` makes the building field
non-numeric), yet the derivation of `__get_ip_for_host` does not fail: Python's
`re.match` anchors the pattern at the start of the string only, so the
conforming prefix `h1-b2` matches and the address `10.131.2.1` is produced.
This refutes the claim's clause that every non-conforming name fails as a
configuration error. -/
theorem ip_for_host_counterexample :
    conformingHostName "h1-b2x".data = false ∧
    get_ip_for_host "h1-b2x".data = some "10.131.2.1".data := by
  constructor
  · decide
  · decide

theorem conformingHostName_iff (l : List Char) :
    conformingHostName l = true ↔
    ∃ num ty bld, num ≠ [] ∧ bld ≠ [] ∧ (∀ c ∈ num, c.isDigit = true) ∧
      (∀ c ∈ bld, c.isDigit = true) ∧ (ty = 'b' ∨ ty = 'm') ∧
      l = 'h' :: (num ++ '-' :: ty :: bld) := by
  constructor
  · intro h
    unfold conformingHostName at h
    rcases hm : matchHostName l with _ | ⟨num, ty, bld⟩
    · rw [hm] at h; exact absurd h (by simp)
    · rw [hm] at h
      have hl : l = 'h' :: (num ++ '-' :: ty :: bld) := eq_of_beq h
      obtain ⟨h1, h2, h3, h4, h5, _⟩ := matchHostName_sound l num bld ty hm
      exact ⟨num, ty, bld, h1, h2, h3, h4, h5, hl⟩
  · rintro ⟨num, ty, bld, h1, h2, h3, h4, h5, rfl⟩
    unfold conformingHostName
    rw [matchHostName_exact num bld ty h1 h2 h3 h4 h5]
    simp

theorem building_code_length (ty : Char) : (building_code ty).length = 3 := by
  unfold building_code
  split_ifs <;> rfl

theorem building_code_inj (ty1 ty2 : Char) (h1 : ty1 = 'b' ∨ ty1 = 'm')
    (h2 : ty2 = 'b' ∨ ty2 = 'm') (h : building_code ty1 = building_code ty2) :
    ty1 = ty2 := by
  rcases h1 with rfl | rfl <;> rcases h2 with rfl | rfl
  · rfl
  · exact absurd h (by decide)
  · exact absurd h (by decide)
  · rfl

theorem dot_not_mem_of_digits (l : List Char) (h : ∀ c ∈ l, c.isDigit = true) :
    '.' ∉ l := by
  intro hm
  exact absurd (h '.' hm) (by decide)

theorem ip_render_inj (ty1 ty2 : Char) (bld1 bld2 num1 num2 : List Char)
    (h1 : ty1 = 'b' ∨ ty1 = 'm') (h2 : ty2 = 'b' ∨ ty2 = 'm')
    (hb1 : ∀ c ∈ bld1, c.isDigit = true) (hb2 : ∀ c ∈ bld2, c.isDigit = true)
    (h : ip_render ty1 bld1 num1 = ip_render ty2 bld2 num2) :
    ty1 = ty2 ∧ bld1 = bld2 ∧ num1 = num2 := by
  simp only [ip_render, List.cons_append, List.cons.injEq, true_and] at h
  obtain ⟨hcode, hrest⟩ := List.append_inj h (by rw [building_code_length, building_code_length])
  have hty := building_code_inj _ _ h1 h2 hcode
  simp only [List.cons.injEq, true_and] at hrest
  have hbn := append_cons_inj '.' bld1 bld2 num1 num2
    (dot_not_mem_of_digits _ hb1) (dot_not_mem_of_digits _ hb2) hrest
  exact ⟨hty, hbn.1, hbn.2⟩

theorem get_ip_conforming (num bld : List Char) (ty : Char)
    (hnum : num ≠ []) (hbld : bld ≠ [])
    (hdn : ∀ c ∈ num, c.isDigit = true) (hdb : ∀ c ∈ bld, c.isDigit = true)
    (hty : ty = 'b' ∨ ty = 'm') :
    get_ip_for_host ('h' :: (num ++ '-' :: ty :: bld)) = some (ip_render ty bld num) := by
  unfold get_ip_for_host
  rw [matchHostName_exact num bld ty hnum hbld hdn hdb hty]

/-- C7 (amended): for every conforming name `h<num>-<type><building>` with
type `'b'` or `'m'`, the derived unicast IP is
`10.<131 for b / 200 for m>.<building>.<num>` (first conjunct), distinct
conforming names yield distinct address strings (second conjunct), and the
derivation succeeds exactly for the names that *begin with* a conforming
prefix — not exactly for the fully conforming names, which is what the
counterexample forces the original claim's failure clause to be weakened to
(third conjunct). -/
theorem ip_for_host_amended :
    (∀ num bld : List Char, ∀ ty : Char,
      num ≠ [] → bld ≠ [] → (∀ c ∈ num, c.isDigit = true) → (∀ c ∈ bld, c.isDigit = true) →
      (ty = 'b' ∨ ty = 'm') →
      get_ip_for_host ('h' :: (num ++ '-' :: ty :: bld)) = some (ip_render ty bld num)) ∧
    (∀ num1 bld1 num2 bld2 : List Char, ∀ ty1 ty2 : Char,
      num1 ≠ [] → bld1 ≠ [] → (∀ c ∈ num1, c.isDigit = true) →
      (∀ c ∈ bld1, c.isDigit = true) → (ty1 = 'b' ∨ ty1 = 'm') →
      num2 ≠ [] → bld2 ≠ [] → (∀ c ∈ num2, c.isDigit = true) →
      (∀ c ∈ bld2, c.isDigit = true) → (ty2 = 'b' ∨ ty2 = 'm') →
      ('h' :: (num1 ++ '-' :: ty1 :: bld1) : List Char) ≠
        'h' :: (num2 ++ '-' :: ty2 :: bld2) →
      get_ip_for_host ('h' :: (num1 ++ '-' :: ty1 :: bld1)) ≠
        get_ip_for_host ('h' :: (num2 ++ '-' :: ty2 :: bld2))) ∧
    (∀ l : List Char, (get_ip_for_host l).isSome = true ↔
      ∃ num ty bld rest, num ≠ [] ∧ bld ≠ [] ∧ (∀ c ∈ num, c.isDigit = true) ∧
        (∀ c ∈ bld, c.isDigit = true) ∧ (ty = 'b' ∨ ty = 'm') ∧
        l = 'h' :: (num ++ '-' :: ty :: (bld ++ rest))) := by
  refine ⟨get_ip_conforming, ?_, ?_⟩
  · intro num1 bld1 num2 bld2 ty1 ty2 hn1 hb1 hdn1 hdb1 hty1 hn2 hb2 hdn2 hdb2 hty2 hne h
    rw [get_ip_conforming num1 bld1 ty1 hn1 hb1 hdn1 hdb1 hty1,
      get_ip_conforming num2 bld2 ty2 hn2 hb2 hdn2 hdb2 hty2] at h
    simp only [Option.some.injEq] at h
    obtain ⟨hty, hbld, hnum⟩ := ip_render_inj ty1 ty2 bld1 bld2 num1 num2
      hty1 hty2 hdb1 hdb2 h
    exact hne (by rw [hty, hbld, hnum])
  · intro l
    constructor
    · intro h
      rcases hm : matchHostName l with _ | ⟨num, ty, bld⟩
      · rw [show get_ip_for_host l = none by unfold get_ip_for_host; rw [hm]] at h
        exact absurd h (by simp)
      · obtain ⟨h1, h2, h3, h4, h5, rest, hl⟩ := matchHostName_sound l num bld ty hm
        exact ⟨num, ty, bld, rest, h1, h2, h3, h4, h5, hl⟩
    · rintro ⟨num, ty, bld, rest, h1, h2, h3, h4, h5, rfl⟩
      have hs := matchHostName_prefix_isSome num bld rest ty h1 h2 h3 h4 h5
      rcases hm : matchHostName ('h' :: (num ++ '-' :: ty :: (bld ++ rest)))
        with _ | ⟨num2, ty2, bld2⟩
      · rw [hm] at hs; exact absurd hs (by simp)
      · unfold get_ip_for_host
        rw [hm]
        rfl

/-- Witness for C7 (amended) at the conforming name `h1-b2`. -/
theorem ip_for_host_amended_witness :
    (['1'] : List Char) ≠ [] ∧ (['2'] : List Char) ≠ [] ∧
    (∀ c ∈ (['1'] : List Char), c.isDigit = true) ∧
    (∀ c ∈ (['2'] : List Char), c.isDigit = true) ∧
    get_ip_for_host ('h' :: (['1'] ++ '-' :: 'b' :: ['2'])) =
      some (ip_render 'b' ['2'] ['1']) :=
  ⟨by decide, by decide, by decide, by decide,
    ip_for_host_amended.1 ['1'] ['2'] 'b' (by decide) (by decide) (by decide) (by decide)
      (Or.inl rfl)⟩

/-! ## Trace position lemmas -/

theorem idx_lt_of_no_P_right {α : Type} (P : α → Prop) (X Y : List α) (i : Nat)
    (hi : i < (X ++ Y).length) (hP : P ((X ++ Y)[i])) (h : ∀ e ∈ Y, ¬ P e) :
    i < X.length := by
  by_contra hge
  push_neg at hge
  have hlen : i - X.length < Y.length := by
    rw [List.length_append] at hi
    omega
  have heq : (X ++ Y)[i] = Y[i - X.length] := List.getElem_append_right hge
  rw [heq] at hP
  exact h _ (List.getElem_mem hlen) hP

theorem idx_ge_of_no_P_left {α : Type} (P : α → Prop) (X Y : List α) (j : Nat)
    (hj : j < (X ++ Y).length) (hP : P ((X ++ Y)[j])) (h : ∀ e ∈ X, ¬ P e) :
    X.length ≤ j := by
  by_contra hlt
  push_neg at hlt
  have heq : (X ++ Y)[j] = X[j] := List.getElem_append_left hlt
  rw [heq] at hP
  exact h _ (List.getElem_mem hlt) hP

/-! ## Event-class lemmas for the teardown trace -/

theorem mem_server_reap_trace (noSubs sc : Int) (e : TDEvent)
    (h : e ∈ server_reap_trace noSubs sc) : isServerEvt e = true := by
  simp only [server_reap_trace, List.mem_cons] at h
  rcases h with rfl | h
  · rfl
  · split_ifs at h <;> simp_all [isServerEvt]

theorem mem_client_reap_traces (cs : List Int) (e : TDEvent)
    (h : e ∈ cs.flatMap client_reap_trace_one) : isClientEvt e = true := by
  induction cs with
  | nil => simp at h
  | cons c cs ih =>
    simp only [List.flatMap_cons, List.mem_append] at h
    rcases h with h | h
    · simp only [client_reap_trace_one, List.mem_cons] at h
      rcases h with rfl | h
      · rfl
      · split_ifs at h <;> simp_all [isClientEvt]
    · exact ih h

theorem mem_iperf_trace (a b : List Int) (e : TDEvent)
    (h : e ∈ iperf_teardown_trace a b) :
    e = TDEvent.waitClientIperf ∨ e = TDEvent.killServerIperf := by
  simp only [iperf_teardown_trace, List.mem_append, List.mem_map] at h
  rcases h with ⟨x, _, rfl⟩ | ⟨x, _, rfl⟩
  · exact Or.inl rfl
  · exact Or.inr rfl

theorem mem_cleanup_loop (polls : List Nat) (tr : List TDEvent)
    (h : cleanup_loop polls = some tr) (e : TDEvent) (he : e ∈ tr) :
    isCleanupEvt e = true := by
  induction polls generalizing tr with
  | nil => simp [cleanup_loop] at h
  | cons n rest ih =>
    simp only [cleanup_loop] at h
    split_ifs at h with hn
    · simp only [Option.some.injEq] at h
      subst h
      simp only [cleanup_cycle, List.mem_cons] at he
      rcases he with rfl | rfl | rfl | he
      · rfl
      · rfl
      · rfl
      · simp at he
    · rcases hrec : cleanup_loop rest with _ | tr2
      · rw [hrec] at h; simp at h
      · rw [hrec] at h
        simp only [Option.map_some', Option.some.injEq] at h
        subst h
        rcases List.mem_append.mp he with he | he
        · simp only [cleanup_cycle, List.mem_cons] at he
          rcases he with rfl | rfl | rfl | he
          · rfl
          · rfl
          · rfl
          · simp at he
        · exact ih tr2 hrec he

theorem mem_control_plane_cleanup (polls : List Nat) (tr : List TDEvent)
    (h : control_plane_cleanup polls = some tr) (e : TDEvent) (he : e ∈ tr) :
    isCleanupEvt e = true := by
  unfold control_plane_cleanup at h
  rcases hrec : cleanup_loop polls with _ | tr2
  · rw [hrec] at h; simp at h
  · rw [hrec] at h
    simp only [Option.map_some', Option.some.injEq] at h
    subst h
    rcases List.mem_cons.mp he with rfl | he
    · rfl
    · exact mem_cleanup_loop polls tr2 hrec e he

theorem mem_reap_trace (noSubs sc : Int) (cs : List Int) (e : TDEvent)
    (h : e ∈ reap_trace noSubs sc cs) :
    isServerEvt e = true ∨ isClientEvt e = true := by
  rcases List.mem_append.mp h with h | h
  · exact Or.inl (mem_server_reap_trace noSubs sc e h)
  · exact Or.inr (mem_client_reap_traces cs e h)

/-- Structure of every successful teardown: the roster was non-empty, the
returned state has an empty roster, and the trace is the reap segment, the
iperf segment, the optional CLI, the control-plane cleanup and the final
stop/clean/sleep events, in that order. -/
theorem teardown_ok_shape (noSubs : Int) (st : ExpState) (polls : List Nat)
    (st2 : ExpState) (tr : List TDEvent)
    (h : teardown_experiment noSubs st polls = Except.ok (st2, tr)) :
    ∃ sc cs cleanEvts,
      st.popens = sc :: cs ∧
      st2.popens = [] ∧
      (∀ e ∈ cleanEvts, isCleanupEvt e = true) ∧
      tr = reap_trace noSubs sc cs ++
        iperf_teardown_trace st.clientIperfs st.serverIperfs ++
        (if st.showCli then [TDEvent.cli] else []) ++ cleanEvts ++
        [TDEvent.netStop, TDEvent.mnClean, TDEvent.sleepBetweenRuns] := by
  obtain ⟨pop, ci, si, shw, adp⟩ := st
  rcases hp : pop with _ | ⟨sc, cs⟩
  · subst hp
    simp [teardown_experiment] at h
  · subst hp
    cases adp with
    | false =>
      simp only [teardown_experiment, Bool.false_eq_true, if_false] at h
      simp only [Except.ok.injEq, Prod.mk.injEq] at h
      obtain ⟨hst, htr⟩ := h
      refine ⟨sc, cs, [], rfl, by rw [← hst], by simp, ?_⟩
      rw [← htr]
      simp
    | true =>
      simp only [teardown_experiment, if_true] at h
      rcases hc : control_plane_cleanup polls with _ | cleanEvts
      · rw [hc] at h
        exact absurd h (by simp)
      · rw [hc] at h
        simp only [Except.ok.injEq, Prod.mk.injEq] at h
        obtain ⟨hst, htr⟩ := h
        refine ⟨sc, cs, cleanEvts, rfl, by rw [← hst],
          mem_control_plane_cleanup polls cleanEvts hc, ?_⟩
        rw [← htr]

theorem no_server_in_rest (cs ci si : List Int) (b : Bool) (cleanEvts : List TDEvent)
    (hclean : ∀ e ∈ cleanEvts, isCleanupEvt e = true) :
    ∀ e ∈ cs.flatMap client_reap_trace_one ++
      (iperf_teardown_trace ci si ++
        ((if b then [TDEvent.cli] else []) ++
          (cleanEvts ++ [TDEvent.netStop, TDEvent.mnClean, TDEvent.sleepBetweenRuns]))),
      ¬ isServerEvt e = true := by
  intro e he
  simp only [List.mem_append] at he
  rcases he with h | h | h | h | h
  · have hc := mem_client_reap_traces cs e h
    cases e <;> simp_all [isClientEvt, isServerEvt]
  · rcases mem_iperf_trace ci si e h with rfl | rfl <;> simp [isServerEvt]
  · split_ifs at h with hb
    · simp only [List.mem_singleton] at h
      subst h
      simp [isServerEvt]
    · simp at h
  · have hc := hclean e h
    cases e <;> simp_all [isCleanupEvt, isServerEvt]
  · simp only [List.mem_cons] at h
    rcases h with rfl | rfl | rfl | h
    · simp [isServerEvt]
    · simp [isServerEvt]
    · simp [isServerEvt]
    · simp at h

theorem no_client_in_server_seg (noSubs sc : Int) :
    ∀ e ∈ server_reap_trace noSubs sc, ¬ isClientEvt e = true := by
  intro e he
  have hs := mem_server_reap_trace noSubs sc e he
  cases e <;> simp_all [isServerEvt, isClientEvt]

/-! ## C1 -/

theorem filter_waitClient_flatMap (cs : List Int) :
    (cs.flatMap client_reap_trace_one).filter isWaitClient = cs.map TDEvent.waitClient := by
  induction cs with
  | nil => rfl
  | cons c cs ih =>
    simp only [List.flatMap_cons, List.filter_append, ih, List.map_cons]
    have hone : (client_reap_trace_one c).filter isWaitClient = [TDEvent.waitClient c] := by
      simp only [client_reap_trace_one]
      split_ifs <;> rfl
    rw [hone]
    rfl

/-- C1: during reaping in `teardown_experiment` (lines 614-636), the server's
exit code is classified specially: the designated no-reachable-subscribers
code (`noSubs`, a non-zero constant of the server application) voids the
trial (first conjunct) and is reported without crashing while every client is
still reaped (last conjunct: the teardown succeeds and the trace waits on
every client handle); for client handles, the designated network-unreachable
code `errno.ENETUNREACH` is the recognized non-fatal failure (second
conjunct) and any other non-zero code is the unexpected-failure
classification (third conjunct); no client outcome aborts reaping early (the
outcome list is a total map over the client roster, fourth conjunct). -/
theorem reap_classification_spec (noSubs : Int) (h0 : noSubs ≠ 0) :
    classify_server noSubs noSubs = ServerOutcome.voidTrial ∧
    (∀ c : Int, c ≠ 0 → c = ENETUNREACH → classify_client c = ClientOutcome.netUnreach) ∧
    (∀ c : Int, c ≠ 0 → c ≠ ENETUNREACH → classify_client c = ClientOutcome.unexpected c) ∧
    (∀ sc : Int, ∀ cs : List Int,
      (reap_outcomes noSubs sc cs).2 = cs.map classify_client) ∧
    (∀ cs : List Int, ∃ st2 tr,
      teardown_experiment noSubs ⟨noSubs :: cs, [], [], false, true⟩ [0] =
        Except.ok (st2, tr) ∧
      TDEvent.logVoidTrial ∈ tr ∧
      (tr.filter isWaitClient).length = cs.length) := by
  refine ⟨?_, ?_, ?_, ?_, ?_⟩
  · simp [classify_server, h0]
  · intro c h1 h2
    subst h2
    decide
  · intro c h1 h2
    simp [classify_client, h1, h2]
  · intro sc cs
    rfl
  · intro cs
    refine ⟨⟨[], [], [], false, true⟩, _, rfl, ?_, ?_⟩
    · simp [reap_trace, server_reap_trace, h0]
    · simp [reap_trace, server_reap_trace, iperf_teardown_trace, h0, List.filter_append,
        filter_waitClient_flatMap, isWaitClient, control_plane_cleanup, cleanup_loop,
        cleanup_cycle]

/-- Witness for C1: designated code 4, a network-unreachable client (101) and
an unexpected client failure (7). -/
theorem reap_classification_spec_witness :
    (4 : Int) ≠ 0 ∧
    classify_server 4 4 = ServerOutcome.voidTrial ∧
    classify_client 101 = ClientOutcome.netUnreach ∧
    classify_client 7 = ClientOutcome.unexpected 7 :=
  ⟨by decide, (reap_classification_spec 4 (by decide)).1,
    (reap_classification_spec 4 (by decide)).2.1 101 (by decide) rfl,
    (reap_classification_spec 4 (by decide)).2.2.1 7 (by decide) (by decide)⟩

/-! ## C2 -/

/-- C2: `setup_seismic_test` appends the server's process handle to the
roster before any client handle, so it is always first (first conjunct; the
roster is empty when the method runs), and during reaping in
`teardown_experiment` every server-reaping event occurs strictly before every
client-reaping event of the trace (second conjunct). -/
theorem server_first_and_reaped_first :
    (∀ s : Int, ∀ cs : List Int, (setup_seismic_popens [] s cs).head? = some s) ∧
    (∀ noSubs : Int, ∀ st : ExpState, ∀ polls : List Nat, ∀ st2 : ExpState,
      ∀ tr : List TDEvent,
      teardown_experiment noSubs st polls = Except.ok (st2, tr) →
      ∀ i j, (hi : i < tr.length) → (hj : j < tr.length) →
        isServerEvt tr[i] = true → isClientEvt tr[j] = true → i < j) := by
  constructor
  · intro s cs
    rfl
  · intro noSubs st polls st2 tr h i j hi hj hsi hcj
    obtain ⟨sc, cs, cleanEvts, hp, hpop2, hclean, htr⟩ :=
      teardown_ok_shape noSubs st polls st2 tr h
    have htr2 : tr = server_reap_trace noSubs sc ++
        (cs.flatMap client_reap_trace_one ++
          (iperf_teardown_trace st.clientIperfs st.serverIperfs ++
            ((if st.showCli then [TDEvent.cli] else []) ++
              (cleanEvts ++ [TDEvent.netStop, TDEvent.mnClean, TDEvent.sleepBetweenRuns])))) := by
      rw [htr]
      simp [reap_trace, List.append_assoc]
    subst htr2
    have hlt : i < (server_reap_trace noSubs sc).length :=
      idx_lt_of_no_P_right (fun e => isServerEvt e = true) _ _ i hi hsi
        (no_server_in_rest cs st.clientIperfs st.serverIperfs st.showCli cleanEvts hclean)
    have hge : (server_reap_trace noSubs sc).length ≤ j :=
      idx_ge_of_no_P_left (fun e => isClientEvt e = true) _ _ j hj hcj
        (no_client_in_server_seg noSubs sc)
    omega

/-- Witness for C2: a concrete two-process roster; the server handle (code 4)
is first, and in the concrete reaped trace the server events (indices 0, 1)
precede the client event (index 2). -/
theorem server_first_and_reaped_first_witness :
    (setup_seismic_popens [] 5 [0, 101]).head? = some 5 ∧ (0 : Nat) < 2 :=
  ⟨server_first_and_reaped_first.1 5 [0, 101],
    server_first_and_reaped_first.2 5 ⟨[4, 0], [], [], false, true⟩ [0]
      ⟨[], [], [], false, true⟩
      [TDEvent.waitServer 4, TDEvent.logServerUnexpected 4, TDEvent.waitClient 0,
        TDEvent.removeAllFlows, TDEvent.removeAllGroups, TDEvent.waitInterval,
        TDEvent.queryGroups 0, TDEvent.netStop, TDEvent.mnClean, TDEvent.sleepBetweenRuns]
      rfl 0 2 (by decide) (by decide) rfl rfl⟩

/-! ## C4 -/

theorem cleanup_loop_first_zero (pre post : List Nat) (h : ∀ n ∈ pre, n ≠ 0) :
    cleanup_loop (pre ++ 0 :: post) = some ((pre ++ [0]).flatMap cleanup_cycle) := by
  induction pre with
  | nil => simp [cleanup_loop]
  | cons n pre ih =>
    have hn : n ≠ 0 := h n (List.mem_cons_self _ _)
    have ih2 := ih (fun m hm => h m (List.mem_cons_of_mem _ hm))
    simp only [List.cons_append, cleanup_loop, if_neg hn, List.append_eq, ih2,
      Option.map_some', List.flatMap_cons]

theorem cleanup_cycle_stats (l : List Nat) :
    (l.flatMap cleanup_cycle).count TDEvent.removeAllFlows = 0 ∧
    (l.flatMap cleanup_cycle).count TDEvent.removeAllGroups = l.length ∧
    (l.flatMap cleanup_cycle).filter isQueryGroups = l.map TDEvent.queryGroups := by
  induction l with
  | nil => exact ⟨rfl, rfl, rfl⟩
  | cons n l ih =>
    refine ⟨?_, ?_, ?_⟩
    · simp [List.flatMap_cons, List.count_append, cleanup_cycle, ih.1, List.count_cons]
    · simp [List.flatMap_cons, List.count_append, cleanup_cycle, ih.2.1, List.count_cons]
    · simp [List.flatMap_cons, List.filter_append, cleanup_cycle, ih.2.2, isQueryGroups]

/-- C4: the control-plane cleanup of `teardown_experiment` (lines 656-671)
issues the remove-all-flow-rules request exactly once, then repeats the cycle
(remove all groups, wait, query the group count), terminating exactly with
the first poll that returns zero: for a poll sequence whose first zero is
preceded by `pre`, the trace contains `pre.length + 1` remove-all-groups
cycles and its queries are exactly the polls up to and including that first
zero (first conjunct); for the polled sequence `[3, 1, 0]` the loop performs
exactly three cycles and stops (second conjunct). -/
theorem cleanup_loop_spec :
    (∀ pre post : List Nat, (∀ n ∈ pre, n ≠ 0) →
      ∃ tr, control_plane_cleanup (pre ++ 0 :: post) = some tr ∧
        tr.count TDEvent.removeAllFlows = 1 ∧
        tr.count TDEvent.removeAllGroups = pre.length + 1 ∧
        tr.filter isQueryGroups = (pre ++ [0]).map TDEvent.queryGroups) ∧
    control_plane_cleanup [3, 1, 0] =
      some [TDEvent.removeAllFlows,
        TDEvent.removeAllGroups, TDEvent.waitInterval, TDEvent.queryGroups 3,
        TDEvent.removeAllGroups, TDEvent.waitInterval, TDEvent.queryGroups 1,
        TDEvent.removeAllGroups, TDEvent.waitInterval, TDEvent.queryGroups 0] := by
  constructor
  · intro pre post h
    refine ⟨TDEvent.removeAllFlows :: ((pre ++ [0]).flatMap cleanup_cycle), ?_, ?_, ?_, ?_⟩
    · unfold control_plane_cleanup
      rw [cleanup_loop_first_zero pre post h]
      rfl
    · simp only [List.count_cons]
      rw [(cleanup_cycle_stats (pre ++ [0])).1]
      simp
    · simp only [List.count_cons]
      rw [(cleanup_cycle_stats (pre ++ [0])).2.1]
      simp
    · simp only [List.filter_cons]
      rw [(cleanup_cycle_stats (pre ++ [0])).2.2]
      simp [isQueryGroups]
  · rfl

/-- Witness for C4 at the spec's scenario `[3, 1, 0]`. -/
theorem cleanup_loop_spec_witness :
    (∀ n ∈ ([3, 1] : List Nat), n ≠ 0) ∧
    (∃ tr, control_plane_cleanup [3, 1, 0] = some tr ∧
      tr.count TDEvent.removeAllFlows = 1 ∧
      tr.count TDEvent.removeAllGroups = 3 ∧
      tr.filter isQueryGroups = [TDEvent.queryGroups 3, TDEvent.queryGroups 1,
        TDEvent.queryGroups 0]) :=
  ⟨by decide, by
    have h := cleanup_loop_spec.1 [3, 1] [] (by decide)
    simpa using h⟩

/-! ## C8 -/

/-- C8 counterexample: teardown is not idempotent.  From a representative
post-run state (a two-process roster that exited cleanly, an adapter set, CLI
off), the first `teardown_experiment` succeeds and empties the roster; the
immediate second invocation does not succeed with no further effects, as the
claim states: it fails with the uncaught `IndexError` of `self.popens[0]` on
the now-empty roster (line 619). -/
theorem teardown_twice_counterexample :
    teardown_experiment 4 ⟨[0, 0], [], [], false, true⟩ [0] =
      Except.ok (⟨[], [], [], false, true⟩,
        [TDEvent.waitServer 0, TDEvent.waitClient 0, TDEvent.removeAllFlows,
          TDEvent.removeAllGroups, TDEvent.waitInterval, TDEvent.queryGroups 0,
          TDEvent.netStop, TDEvent.mnClean, TDEvent.sleepBetweenRuns]) ∧
    teardown_experiment 4 ⟨[], [], [], false, true⟩ [0] =
      Except.error TDErr.indexError := by
  constructor
  · rfl
  · rfl

/-- C8 (amended): teardown is not re-invocable rather than idempotent: on any
state with an empty process roster it fails immediately with an index error,
before performing any cleanup side effect (first conjunct), and every
successful teardown leaves the roster empty, so a second invocation always
fails that way (second conjunct). -/
theorem teardown_not_reinvocable :
    (∀ noSubs : Int, ∀ st : ExpState, ∀ polls : List Nat, st.popens = [] →
      teardown_experiment noSubs st polls = Except.error TDErr.indexError) ∧
    (∀ noSubs : Int, ∀ st st2 : ExpState, ∀ polls : List Nat, ∀ tr : List TDEvent,
      teardown_experiment noSubs st polls = Except.ok (st2, tr) →
      st2.popens = [] ∧
      ∀ noSubs2 : Int, ∀ polls2 : List Nat,
        teardown_experiment noSubs2 st2 polls2 = Except.error TDErr.indexError) := by
  have hempty : ∀ noSubs : Int, ∀ st : ExpState, ∀ polls : List Nat, st.popens = [] →
      teardown_experiment noSubs st polls = Except.error TDErr.indexError := by
    intro noSubs st polls hp
    unfold teardown_experiment
    rw [hp]
  refine ⟨hempty, ?_⟩
  intro noSubs st st2 polls tr h
  obtain ⟨sc, cs, cleanEvts, hp, hpop2, hclean, htr⟩ :=
    teardown_ok_shape noSubs st polls st2 tr h
  exact ⟨hpop2, fun noSubs2 polls2 => hempty noSubs2 st2 polls2 hpop2⟩

/-- Witness for C8 (amended): the empty-roster state, with its hypothesis
discharged by `rfl`. -/
theorem teardown_not_reinvocable_witness :
    teardown_experiment 4 ⟨[], [], [], false, true⟩ [] =
      Except.error TDErr.indexError :=
  teardown_not_reinvocable.1 4 ⟨[], [], [], false, true⟩ [] rfl

/-! ## C10 -/

theorem cleanup_ne_cli (e : TDEvent) (h : isCleanupEvt e = true) : e ≠ TDEvent.cli := by
  cases e <;> simp_all [isCleanupEvt]

theorem no_cli_after_cli_seg (cleanEvts : List TDEvent)
    (hclean : ∀ e ∈ cleanEvts, isCleanupEvt e = true) :
    ∀ e ∈ cleanEvts ++ [TDEvent.netStop, TDEvent.mnClean, TDEvent.sleepBetweenRuns],
      ¬ e = TDEvent.cli := by
  intro e he
  rcases List.mem_append.mp he with h | h
  · exact cleanup_ne_cli e (hclean e h)
  · simp only [List.mem_cons] at h
    rcases h with rfl | rfl | rfl | h
    · simp
    · simp
    · simp
    · simp at h

theorem no_cleanup_before_cli_seg (noSubs sc : Int) (cs ci si : List Int) :
    ∀ e ∈ reap_trace noSubs sc cs ++ iperf_teardown_trace ci si ++ [TDEvent.cli],
      ¬ isCleanupEvt e = true := by
  intro e he
  rcases List.mem_append.mp he with he | he
  · rcases List.mem_append.mp he with he | he
    · rcases mem_reap_trace noSubs sc cs e he with hs | hs <;>
        cases e <;> simp_all [isServerEvt, isClientEvt, isCleanupEvt]
    · rcases mem_iperf_trace ci si e he with rfl | rfl <;> simp [isCleanupEvt]
  · simp only [List.mem_singleton] at he
    subst he
    simp [isCleanupEvt]

/-- C10: line 132 sets `show_cli` to true whenever `nruns == 1`, even when the
`--cli` option was not requested (first conjunct), and in every successful
teardown of a state with `show_cli` set, the interactive Mininet CLI event is
present in the trace and occurs strictly before every control-plane cleanup
and network-stop event: cleanup proceeds only after the CLI session ends
(second conjunct). -/
theorem single_run_cli_before_cleanup (nruns : Nat) (arg : Bool) (h : nruns = 1) :
    show_cli_of nruns arg = true ∧
    (∀ noSubs : Int, ∀ st : ExpState, ∀ polls : List Nat, ∀ st2 : ExpState,
      ∀ tr : List TDEvent, st.showCli = true →
      teardown_experiment noSubs st polls = Except.ok (st2, tr) →
      TDEvent.cli ∈ tr ∧
      ∀ i j, (hi : i < tr.length) → (hj : j < tr.length) →
        tr[i] = TDEvent.cli → isCleanupEvt tr[j] = true → i < j) := by
  constructor
  · subst h
    simp [show_cli_of]
  · intro noSubs st polls st2 tr hcli hok
    obtain ⟨sc, cs, cleanEvts, hp, hpop2, hclean, htr⟩ :=
      teardown_ok_shape noSubs st polls st2 tr hok
    have hcliEvts : (if st.showCli then [TDEvent.cli] else []) = [TDEvent.cli] := by
      simp [hcli]
    have htr2 : tr = (reap_trace noSubs sc cs ++
        iperf_teardown_trace st.clientIperfs st.serverIperfs ++ [TDEvent.cli]) ++
        (cleanEvts ++ [TDEvent.netStop, TDEvent.mnClean, TDEvent.sleepBetweenRuns]) := by
      rw [htr, hcliEvts]
      simp [List.append_assoc]
    constructor
    · rw [htr2]
      simp
    · intro i j hi hj hci hcj
      subst htr2
      have hlt : i < (reap_trace noSubs sc cs ++
          iperf_teardown_trace st.clientIperfs st.serverIperfs ++ [TDEvent.cli]).length :=
        idx_lt_of_no_P_right (fun e => e = TDEvent.cli) _ _ i hi hci
          (no_cli_after_cli_seg cleanEvts hclean)
      have hge : (reap_trace noSubs sc cs ++
          iperf_teardown_trace st.clientIperfs st.serverIperfs ++ [TDEvent.cli]).length ≤ j :=
        idx_ge_of_no_P_left (fun e => isCleanupEvt e = true) _ _ j hj hcj
          (no_cleanup_before_cli_seg noSubs sc cs st.clientIperfs st.serverIperfs)
      omega

/-- Witness for C10: one run (`nruns = 1`, no `--cli` argument) and a concrete
successful teardown whose trace shows the CLI at index 1, before the cleanup
events. -/
theorem single_run_cli_before_cleanup_witness :
    show_cli_of 1 false = true ∧
    TDEvent.cli ∈ [TDEvent.waitServer 0, TDEvent.cli, TDEvent.removeAllFlows,
      TDEvent.removeAllGroups, TDEvent.waitInterval, TDEvent.queryGroups 0,
      TDEvent.netStop, TDEvent.mnClean, TDEvent.sleepBetweenRuns] :=
  ⟨(single_run_cli_before_cleanup 1 false rfl).1,
    ((single_run_cli_before_cleanup 1 false rfl).2 4 ⟨[0], [], [], true, true⟩ [0]
      ⟨[], [], [], true, true⟩
      [TDEvent.waitServer 0, TDEvent.cli, TDEvent.removeAllFlows,
        TDEvent.removeAllGroups, TDEvent.waitInterval, TDEvent.queryGroups 0,
        TDEvent.netStop, TDEvent.mnClean, TDEvent.sleepBetweenRuns] rfl rfl).1⟩

/-! ## C5 and C9: run_experiment -/

theorem run_prefix_no_spawn : ∀ e ∈ run_prefix_trace, isSpawnOrFailEvt e = false := by
  decide

theorem run_prefix_no_link : ∀ e ∈ run_prefix_trace, isLinkDownEvt e = false := by
  decide

theorem run_prefix_no_stop : ∀ e ∈ run_prefix_trace, isNodeStopEvt e = false := by
  decide

theorem setup_topology_manager_known (t : String) (adapterEvts : List RunEvent)
    (h : setup_topology_manager t = Except.ok adapterEvts) :
    adapterEvts = [RunEvent.adapterCreated t] := by
  unfold setup_topology_manager at h
  split_ifs at h with hc
  simp only [Except.ok.injEq] at h
  exact h.symm

/-- C5: in `run_experiment` (lines 414-420), when the failure set is applied,
every failed link is transitioned to the down state before any failed node is
stopped — every link-down event of the trace occurs at a strictly smaller
index than every node-stop event (second conjunct) — and every failed node is
stopped with `deleteIntfs=False`, i.e. without removing its virtual
interfaces (first conjunct). -/
theorem failure_injection_order (t : String) (ls : List (String × String))
    (ns : List String) :
    ∀ tr : List RunEvent, tr = (run_experiment t ls ns).1 →
      (∀ e ∈ tr, ∀ nm : String, ∀ b : Bool, e = RunEvent.nodeStop nm b → b = false) ∧
      (∀ i j, (hi : i < tr.length) → (hj : j < tr.length) →
        isLinkDownEvt tr[i] = true → isNodeStopEvt tr[j] = true → i < j) := by
  intro tr htr
  rcases hset : setup_topology_manager t with code | adapterEvts
  · have htr2 : tr = run_prefix_trace := by
      rw [htr]
      unfold run_experiment
      rw [hset]
    subst htr2
    constructor
    · intro e he nm b heq
      subst heq
      simp [run_prefix_trace] at he
    · intro i j hi hj hl hs
      have hmem := List.getElem_mem hi
      rw [run_prefix_no_link _ hmem] at hl
      simp at hl
  · have hadapter := setup_topology_manager_known t adapterEvts hset
    subst hadapter
    have htr2 : tr = (run_prefix_trace ++ [RunEvent.adapterCreated t] ++
        [RunEvent.trafficGenerators, RunEvent.seismicSetup, RunEvent.armSleep] ++
        ls.map (fun l => RunEvent.linkDown l.1 l.2)) ++
        (ns.map (fun n => RunEvent.nodeStop n false) ++ [RunEvent.observeSleep]) := by
      rw [htr]
      unfold run_experiment
      rw [hset]
      simp [List.append_assoc]
    subst htr2
    constructor
    · intro e he nm b heq
      subst heq
      simp only [List.mem_append, List.mem_map, List.mem_cons, run_prefix_trace] at he
      rcases he with (((he | he) | ⟨x, hx, he⟩) | (⟨x, hx, he⟩ | he)) <;> simp_all
    · intro i j hi hj hl hs
      have hlt : i < (run_prefix_trace ++ [RunEvent.adapterCreated t] ++
          [RunEvent.trafficGenerators, RunEvent.seismicSetup, RunEvent.armSleep] ++
          ls.map (fun l => RunEvent.linkDown l.1 l.2)).length := by
        refine idx_lt_of_no_P_right (fun e => isLinkDownEvt e = true) _ _ i hi hl ?_
        intro e he'
        rcases List.mem_append.mp he' with h | h
        · obtain ⟨x, _, rfl⟩ := List.mem_map.mp h
          simp [isLinkDownEvt]
        · simp only [List.mem_singleton] at h
          subst h
          simp [isLinkDownEvt]
      have hge : (run_prefix_trace ++ [RunEvent.adapterCreated t] ++
          [RunEvent.trafficGenerators, RunEvent.seismicSetup, RunEvent.armSleep] ++
          ls.map (fun l => RunEvent.linkDown l.1 l.2)).length ≤ j := by
        refine idx_ge_of_no_P_left (fun e => isNodeStopEvt e = true) _ _ j hj hs ?_
        intro e he'
        rcases List.mem_append.mp he' with h | h
        · rcases List.mem_append.mp h with h | h
          · rcases List.mem_append.mp h with h | h
            · have := run_prefix_no_stop e h
              simp [this]
            · simp only [List.mem_singleton] at h
              subst h
              simp [isNodeStopEvt]
          · simp only [List.mem_cons] at h
            rcases h with rfl | rfl | rfl | h
            · simp [isNodeStopEvt]
            · simp [isNodeStopEvt]
            · simp [isNodeStopEvt]
            · simp at h
        · obtain ⟨x, _, rfl⟩ := List.mem_map.mp h
          simp [isNodeStopEvt]
      omega

/-- Witness for C5: the concrete run with one failed link and one failed
node; the link-down event (index 11) precedes the node-stop event (index 12),
and the node-stop carries `deleteIntfs=False`. -/
theorem failure_injection_order_witness :
    (11 : Nat) < 12 ∧ false = false :=
  ⟨(failure_injection_order "onos" [("s1", "s2")] ["s3"]
      [RunEvent.netBuild, RunEvent.netStart, RunEvent.waitConnected,
        RunEvent.convergenceSleep, RunEvent.setRoutes, RunEvent.ping, RunEvent.staticArp,
        RunEvent.adapterCreated "onos", RunEvent.trafficGenerators, RunEvent.seismicSetup,
        RunEvent.armSleep, RunEvent.linkDown "s1" "s2", RunEvent.nodeStop "s3" false,
        RunEvent.observeSleep] rfl).2 11 12 (by decide) (by decide) rfl rfl,
    (failure_injection_order "onos" [("s1", "s2")] ["s3"]
      [RunEvent.netBuild, RunEvent.netStart, RunEvent.waitConnected,
        RunEvent.convergenceSleep, RunEvent.setRoutes, RunEvent.ping, RunEvent.staticArp,
        RunEvent.adapterCreated "onos", RunEvent.trafficGenerators, RunEvent.seismicSetup,
        RunEvent.armSleep, RunEvent.linkDown "s1" "s2", RunEvent.nodeStop "s3" false,
        RunEvent.observeSleep] rfl).1 (RunEvent.nodeStop "s3" false) (by decide)
      "s3" false rfl⟩

/-- C9 counterexample: with the unknown adapter type `bogus` the run does
abort with exit code 102 — but only after topology resources were realized:
the trace of actions performed before the abort already contains the network
build and start events.  This refutes the claim's clause that the run aborts
before any topology resource is realized (the adapter type is first examined
by `setup_topology_manager`, called from `run_experiment` at line 398, after
`net.build()` and `net.start()` at lines 361-362). -/
theorem adapter_check_after_realization :
    (run_experiment "bogus" [] []).2 = some 102 ∧
    RunEvent.netBuild ∈ (run_experiment "bogus" [] []).1 ∧
    RunEvent.netStart ∈ (run_experiment "bogus" [] []).1 := by
  refine ⟨rfl, ?_, ?_⟩ <;> decide

/-- C9 (amended): an unknown topology adapter type is a fatal configuration
error: `setup_topology_manager` exits with code 102 and the abort propagates
to `run_experiment`'s caller before any participant process is spawned and
before any failure is injected — but after the network was built and started
(realization precedes the check, as the counterexample forces). -/
theorem unknown_adapter_aborts (t : String) (h1 : t ≠ "onos") (h2 : t ≠ "floodlight")
    (ls : List (String × String)) (ns : List String) :
    setup_topology_manager t = Except.error 102 ∧
    (run_experiment t ls ns).2 = some 102 ∧
    (∀ e ∈ (run_experiment t ls ns).1, isSpawnOrFailEvt e = false) ∧
    RunEvent.netBuild ∈ (run_experiment t ls ns).1 := by
  have hset : setup_topology_manager t = Except.error 102 := by
    unfold setup_topology_manager
    rw [if_neg]
    rintro (h | h)
    · exact h1 h
    · exact h2 h
  have hrun : run_experiment t ls ns = (run_prefix_trace, some 102) := by
    unfold run_experiment
    rw [hset]
  refine ⟨hset, by rw [hrun], ?_, by rw [hrun]; decide⟩
  rw [hrun]
  decide

/-- Witness for C9 (amended) at the concrete unknown type `bogus`. -/
theorem unknown_adapter_aborts_witness :
    "bogus" ≠ "onos" ∧ "bogus" ≠ "floodlight" ∧
    (run_experiment "bogus" [] []).2 = some 102 :=
  ⟨by decide, by decide,
    (unknown_adapter_aborts "bogus" (by decide) (by decide) [] []).2.1⟩

end RideMininet
